import Mathlib

/-!
# Verification of the chroot mount/unmount lifecycle of `aminator`'s yum provisioner

Shallow embedding of `src/aminator/plugins/provisioner/yum.py`
(`YumProvisionerPlugin.configure_chroot`, `teardown_chroot`, `provision`).

External collaborators (`mount`, `unmount`, `busy_mount`, the yum commands,
`short_circuit`, `rewire`, the host filesystem) live in
`aminator.util.linux`, which is not part of the studied source; their
success/failure behaviour is abstracted into an oracle environment `Env`,
while the live OS mount table is an explicit state component threaded
through the functions.  Every call the lifecycle makes to `mount`/`unmount`
is recorded in a trace so that ordering properties can be stated.
-/

set_option autoImplicit false

namespace Aminator

/-- `MountSpec(dev, fstype, mountpoint, options)` from `aminator.util.linux`:
an immutable description of one mount operation. -/
structure MountSpec where
  dev : String
  fstype : String
  mountpoint : String
  options : String
deriving Repr, DecidableEq

/-- One entry of `config.chroot_mounts`: the 4-tuple
`(dev, fstype, mountpoint, options)` unpacked by both loops of `yum.py`. -/
abbrev Mountdef := String × String × String × String

/-- The slice of plugin configuration `yum.py` reads. -/
structure Config where
  chroot_mounts : List Mountdef
deriving Repr, DecidableEq

/-- Drop every leading `/` character (kernel-reducible helper). -/
def dropLeadingSlashes : List Char → List Char
  | [] => []
  | c :: cs => if c == '/' then dropLeadingSlashes cs else c :: cs

/-- `mountpoint.lstrip('/')`: drop every leading `/`. -/
def lstripSlash (s : String) : String :=
  ⟨dropLeadingSlashes s.data⟩

/-- Whether a string ends in `/` (kernel-reducible helper). -/
def endsInSlash (s : String) : Bool :=
  match s.data.getLast? with
  | some c => c == '/'
  | none => false

/-- `os.path.join(base, sub)` for a relative `sub` (as produced by
`lstrip('/')`): inserts a separator unless `base` already ends in one. -/
def osPathJoin (base sub : String) : String :=
  if endsInSlash base then base ++ sub else base ++ "/" ++ sub

/-- The `MountSpec` both loops of `yum.py` build from a `mountdef`:
`MountSpec(dev, fstype, os.path.join(self.mountpoint, mountpoint.lstrip('/')), options)`. -/
def mkMountSpec (base : String) (md : Mountdef) : MountSpec :=
  ⟨md.1, md.2.1, osPathJoin base (lstripSlash md.2.2.1), md.2.2.2⟩

/-- The full chroot-relative mount target of a `mountdef`. -/
def mountTarget (base : String) (md : Mountdef) : String :=
  (mkMountSpec base md).mountpoint

/-- Observable system state: the live OS mount table (`/proc/mounts`),
kept most-recently-mounted-first so enumeration order is LIFO, plus
whether a resolver file currently exists at `<base>/etc/resolv.conf`. -/
structure SysState where
  mounts : List String
  chrootResolv : Bool
deriving Repr, DecidableEq

/-- Oracle for the external collaborators of `aminator.util.linux`:
whether a given `mount(spec)` / `unmount(path)` call returns a successful
`Result`, whether `busy_mount(base).success` holds, and whether
`os.path.isfile('/etc/resolv.conf')` holds on the host. -/
structure Env where
  mountOk : MountSpec → Bool
  unmountOk : String → Bool
  busySuccess : Bool
  hostResolvConf : Bool

/-- Trace of a `configure_chroot` run: mountpoints passed to `mount()` in
call order, whether the host resolver file was copied into the chroot, and
whether the missing-resolver warning was logged. -/
structure CTrace where
  mountCalls : List String
  resolvCopied : Bool
  resolvWarning : Bool
deriving Repr, DecidableEq

/-- The `for mountdef in config.chroot_mounts` loop of `configure_chroot`:
skip when `mounted(mountspec.mountpoint)`, otherwise call `mount(mountspec)`
and on a failed `Result` return `False` immediately.  Returns the state,
the accumulated `mount()` call targets, and the loop's success flag. -/
def configureLoop (env : Env) (base : String) :
    List Mountdef → SysState → List String → SysState × List String × Bool
  | [], st, calls => (st, calls, true)
  | md :: rest, st, calls =>
    let spec := mkMountSpec base md
    if spec.mountpoint ∈ st.mounts then
      configureLoop env base rest st calls
    else if env.mountOk spec then
      configureLoop env base rest
        { st with mounts := spec.mountpoint :: st.mounts }
        (calls ++ [spec.mountpoint])
    else
      (st, calls ++ [spec.mountpoint], false)

/-- `YumProvisionerPlugin.configure_chroot`: run the mount loop; on loop
failure return `False` before touching the resolver file; otherwise copy
`/etc/resolv.conf` into `<base>/etc/` when it exists on the host, else log
a warning, and return `True`. -/
def configure_chroot (env : Env) (base : String) (cfg : Config) (st : SysState) :
    SysState × CTrace × Bool :=
  match configureLoop env base cfg.chroot_mounts st [] with
  | (st1, calls, false) => (st1, ⟨calls, false, false⟩, false)
  | (st1, calls, true) =>
    if env.hostResolvConf then
      ({ st1 with chrootResolv := true }, ⟨calls, true, false⟩, true)
    else
      (st1, ⟨calls, false, true⟩, true)

/-- Outcome of `teardown_chroot`: `ok` models `return True`; `failed p`
models `return False` after an error log whose formatted message names the
path `p`; `unboundLocal` models the `UnboundLocalError` raised when the
error log references the never-assigned loop variable `mountspec`. -/
inductive TOutcome where
  | ok
  | failed (errPath : String)
  | unboundLocal
deriving Repr, DecidableEq

/-- Trace of a `teardown_chroot` run: paths passed to `unmount()` in call
order, and whether the injected resolver file was removed. -/
structure TTrace where
  unmountCalls : List String
  resolvRemoved : Bool
deriving Repr, DecidableEq

/-- The `for mountdef in reversed(config.chroot_mounts)` loop of
`teardown_chroot`: bind `mountspec`, skip (with a warning) when the target
is not mounted, otherwise call `unmount` and on a failed `Result` log an
error naming `mountspec.mountpoint` and return `False`.  Returns the state,
the accumulated `unmount()` call targets, the last value bound to the
Python local `mountspec` (`none` when the loop body never ran), and
`some errPath` when the loop returned `False`. -/
def teardownLoop (env : Env) (base : String) :
    List Mountdef → SysState → List String → Option MountSpec →
    SysState × List String × Option MountSpec × Option String
  | [], st, calls, last => (st, calls, last, none)
  | md :: rest, st, calls, _last =>
    let spec := mkMountSpec base md
    if spec.mountpoint ∈ st.mounts then
      if env.unmountOk spec.mountpoint then
        teardownLoop env base rest
          { st with mounts := st.mounts.erase spec.mountpoint }
          (calls ++ [spec.mountpoint]) (some spec)
      else
        (st, calls ++ [spec.mountpoint], some spec, some spec.mountpoint)
    else
      teardownLoop env base rest st calls (some spec)

/-- Whether the first character list begins the second (kernel-reducible). -/
def charsLead : List Char → List Char → Bool
  | [], _ => true
  | _ :: _, [] => false
  | a :: as, b :: bs => a == b && charsLead as bs

/-- A path is nested under `base` when it is distinct from `base` and
begins with `base ++ "/"`. -/
def pathUnder (base p : String) : Bool :=
  p != base && charsLead (base ++ "/").data p.data

/-- Modelled from the spec: `lifo_mounts` lives in `aminator.util.linux`,
which is not under the studied source tree.  Per the spec, the stray sweep
re-scans "any mounts still nested under the base path … in LIFO discovery
order".  The mount table is kept most-recently-mounted-first, so filtering
it preserves LIFO order; a path is nested under `base` when it extends
`base ++ "/"`. -/
def lifo_mounts (base : String) (mounts : List String) : List String :=
  mounts.filter (fun p => pathUnder base p)

/-- The stray-mount sweep `for mountpoint in lifo_mounts(self.mountpoint)`
of `teardown_chroot`: unmount each discovered path (no mounted-check); on a
failed `Result` the error log formats `mountspec` — the loop variable of the
PRECEDING configured-mount loop — so the named path is the stale
`mountspec.mountpoint`, and when that variable was never assigned the
reference raises `UnboundLocalError`. -/
def strayLoop (env : Env) (last : Option MountSpec) :
    List String → SysState → List String → SysState × List String × Option TOutcome
  | [], st, calls => (st, calls, none)
  | p :: rest, st, calls =>
    if env.unmountOk p then
      strayLoop env last rest { st with mounts := st.mounts.erase p } (calls ++ [p])
    else
      (st, calls ++ [p],
        some (match last with
              | some spec => TOutcome.failed spec.mountpoint
              | none => TOutcome.unboundLocal))

/-- `YumProvisionerPlugin.teardown_chroot`: busy check first (`return False`),
then already-unmounted base check (`return True`), then removal of
`<base>/etc/resolv.conf` when present, then the reverse-order configured
unmount loop, then the stray-mount sweep. -/
def teardown_chroot (env : Env) (base : String) (cfg : Config) (st : SysState) :
    SysState × TTrace × TOutcome :=
  if env.busySuccess then
    (st, ⟨[], false⟩, TOutcome.failed base)
  else if base ∉ st.mounts then
    (st, ⟨[], false⟩, TOutcome.ok)
  else
    match teardownLoop env base cfg.chroot_mounts.reverse
        { st with chrootResolv := false } [] none with
    | (st2, calls1, _, some p) => (st2, ⟨calls1, st.chrootResolv⟩, TOutcome.failed p)
    | (st2, calls1, last, none) =>
      match strayLoop env last (lifo_mounts base st2.mounts) st2 [] with
      | (st3, calls2, some o) => (st3, ⟨calls1 ++ calls2, st.chrootResolv⟩, o)
      | (st3, calls2, none) => (st3, ⟨calls1 ++ calls2, st.chrootResolv⟩, TOutcome.ok)

/-- Events `provision` can emit: calls to `short_circuit('/sbin/service')`,
`yum_clean_metadata()`, `yum_install(...)`, `rewire('/sbin/service')`. -/
inductive PEvent where
  | shortCircuitSvc
  | yumCleanMetadata
  | yumInstallPkg
  | rewireSvc
deriving Repr, DecidableEq

/-- Oracle for the external commands `provision` invokes. -/
structure PEnv where
  shortCircuitOk : Bool
  yumCleanOk : Bool
  yumInstallOk : Bool
  rewireOk : Bool

/-- `YumProvisionerPlugin.provision` body inside `with Chroot(...)`:
optionally short-circuit `/sbin/service`, clean the yum metadata, install
the package, and only then optionally rewire `/sbin/service`.  Each failed
step raises `ProvisionException` (modelled as returning `false`), leaving
the remaining steps unexecuted.  Returns the emitted events and whether the
body completed without raising. -/
def provision (env : PEnv) (shortCircuitSbinService : Bool) : List PEvent × Bool :=
  if shortCircuitSbinService && !env.shortCircuitOk then
    ([PEvent.shortCircuitSvc], false)
  else
    let evs := if shortCircuitSbinService then [PEvent.shortCircuitSvc] else []
    let evs := evs ++ [PEvent.yumCleanMetadata]
    if !env.yumCleanOk then
      (evs, false)
    else
      let evs := evs ++ [PEvent.yumInstallPkg]
      if !env.yumInstallOk then
        (evs, false)
      else if shortCircuitSbinService then
        let evs := evs ++ [PEvent.rewireSvc]
        if !env.rewireOk then (evs, false) else (evs, true)
      else
        (evs, true)

/-! ## Concrete fixtures used by the witnesses -/

/-- Fixture: every external call succeeds, base not busy, host resolv.conf present. -/
def envAll : Env := ⟨fun _ => true, fun _ => true, false, true⟩

/-- Fixture: `busy_mount` reports the chroot base busy. -/
def envBusy : Env := ⟨fun _ => true, fun _ => true, true, true⟩

/-- Fixture: `mount` fails exactly on target `/mnt/img/dev`. -/
def envMountFailDev : Env := ⟨fun s => s.mountpoint != "/mnt/img/dev", fun _ => true, false, true⟩

/-- Fixture: `unmount` fails exactly on target `/mnt/img/dev`. -/
def envUnmountFailDev : Env := ⟨fun _ => true, fun p => p != "/mnt/img/dev", false, true⟩

/-- Fixture: `unmount` fails exactly on the stray `/mnt/img/extra`. -/
def envUnmountFailExtra : Env := ⟨fun _ => true, fun p => p != "/mnt/img/extra", false, true⟩

/-- Fixture: host `/etc/resolv.conf` absent, everything else succeeds. -/
def envNoResolv : Env := ⟨fun _ => true, fun _ => true, false, false⟩

/-- Fixture: configured chroot mounts `/proc` then `/dev` (Scenario A of the spec). -/
def cfgAB : Config :=
  ⟨[("proc", "proc", "/proc", "defaults"), ("devtmpfs", "devtmpfs", "/dev", "defaults")]⟩

/-- Fixture: configured chroot mounts `/proc`, `/dev`, `/sys`. -/
def cfgABC : Config :=
  ⟨[("proc", "proc", "/proc", "defaults"), ("devtmpfs", "devtmpfs", "/dev", "defaults"),
    ("sysfs", "sysfs", "/sys", "defaults")]⟩

/-- Fixture: only the session base volume is mounted. -/
def stBase : SysState := ⟨["/mnt/img"], false⟩

/-- Fixture: nothing is mounted at all. -/
def stNone : SysState := ⟨[], false⟩

/-- Fixture: base volume mounted and `/mnt/img/proc` already mounted before Enter. -/
def stProcPre : SysState := ⟨["/mnt/img/proc", "/mnt/img"], false⟩

/-- Fixture: state after a successful Enter of `cfgABC` with injected resolver. -/
def stABC : SysState := ⟨["/mnt/img/sys", "/mnt/img/dev", "/mnt/img/proc", "/mnt/img"], true⟩

/-- Fixture: state after Enter of `cfgAB` plus a stray `/mnt/img/extra`
mounted by the provisioning body (Scenario B of the spec). -/
def stBody : SysState := ⟨["/mnt/img/extra", "/mnt/img/dev", "/mnt/img/proc", "/mnt/img"], true⟩

/-- Fixture: only the base volume and a stray `/mnt/img/extra` mounted. -/
def stStray : SysState := ⟨["/mnt/img/extra", "/mnt/img"], false⟩

/-- Fixture: empty configured mount list. -/
def cfgEmpty : Config := ⟨[]⟩

/-! ## Helper lemmas about the loops -/

theorem configureLoop_append (env : Env) (base : String) (mds₁ mds₂ : List Mountdef) :
    ∀ (st : SysState) (calls : List String) (st' : SysState) (calls' : List String),
      configureLoop env base mds₁ st calls = (st', calls', true) →
      configureLoop env base (mds₁ ++ mds₂) st calls =
        configureLoop env base mds₂ st' calls' := by
  induction mds₁ with
  | nil =>
    intro st calls st' calls' h
    simp [configureLoop] at h
    simp [h.1, h.2]
  | cons md rest ih =>
    intro st calls st' calls' h
    by_cases hmem : (mkMountSpec base md).mountpoint ∈ st.mounts
    · simp only [configureLoop, List.cons_append] at h ⊢
      rw [if_pos hmem] at h ⊢
      exact ih _ _ _ _ h
    · by_cases hok : env.mountOk (mkMountSpec base md) = true
      · simp only [configureLoop, List.cons_append] at h ⊢
        rw [if_neg hmem, if_pos hok] at h ⊢
        exact ih _ _ _ _ h
      · simp only [configureLoop, List.cons_append] at h
        rw [if_neg hmem, if_neg hok] at h
        simp at h

theorem configureLoop_clean (env : Env) (base : String) (mds : List Mountdef) :
    ∀ (st : SysState) (calls : List String) (st' : SysState) (calls' : List String),
      (∀ md ∈ mds, (mkMountSpec base md).mountpoint ∉ st.mounts) →
      (mds.map (fun md => (mkMountSpec base md).mountpoint)).Nodup →
      configureLoop env base mds st calls = (st', calls', true) →
      calls' = calls ++ mds.map (fun md => (mkMountSpec base md).mountpoint) ∧
      st'.mounts = (mds.map (fun md => (mkMountSpec base md).mountpoint)).reverse ++ st.mounts ∧
      st'.chrootResolv = st.chrootResolv := by
  induction mds with
  | nil =>
    intro st calls st' calls' _ _ h
    simp [configureLoop] at h
    simp [h.1, h.2]
  | cons md rest ih =>
    intro st calls st' calls' hclean hnodup h
    have hmem : (mkMountSpec base md).mountpoint ∉ st.mounts := hclean md (by simp)
    by_cases hok : env.mountOk (mkMountSpec base md) = true
    · simp only [configureLoop] at h
      rw [if_neg hmem, if_pos hok] at h
      have hclean' : ∀ md' ∈ rest,
          (mkMountSpec base md').mountpoint ∉
            (mkMountSpec base md).mountpoint :: st.mounts := by
        intro md' hmd'
        simp only [List.mem_cons, not_or]
        refine ⟨?_, hclean md' (List.mem_cons_of_mem _ hmd')⟩
        intro heq
        have : (mkMountSpec base md).mountpoint ∈
            rest.map (fun md => (mkMountSpec base md).mountpoint) := by
          rw [← heq]
          exact List.mem_map_of_mem _ hmd'
        exact (List.nodup_cons.mp hnodup).1 this
      obtain ⟨h1, h2, h3⟩ := ih _ _ _ _ hclean' (List.nodup_cons.mp hnodup).2 h
      refine ⟨?_, ?_, h3⟩
      · simp [h1]
      · simp [h2]
    · simp only [configureLoop] at h
      rw [if_neg hmem, if_neg hok] at h
      simp at h

theorem configureLoop_resolv (env : Env) (base : String) (mds : List Mountdef) :
    ∀ (st : SysState) (calls : List String),
      (configureLoop env base mds st calls).1.chrootResolv = st.chrootResolv := by
  induction mds with
  | nil => intro st calls; simp [configureLoop]
  | cons md rest ih =>
    intro st calls
    by_cases hmem : (mkMountSpec base md).mountpoint ∈ st.mounts
    · simp only [configureLoop]
      rw [if_pos hmem]
      exact ih _ _
    · by_cases hok : env.mountOk (mkMountSpec base md) = true
      · simp only [configureLoop]
        rw [if_neg hmem, if_pos hok]
        exact ih _ _
      · simp only [configureLoop]
        rw [if_neg hmem, if_neg hok]

theorem configure_chroot_clean (env : Env) (base : String) (cfg : Config)
    (st₀ st₁ : SysState) (ctr : CTrace)
    (hclean : ∀ md ∈ cfg.chroot_mounts, (mkMountSpec base md).mountpoint ∉ st₀.mounts)
    (hnodup : (cfg.chroot_mounts.map (fun md => (mkMountSpec base md).mountpoint)).Nodup)
    (h : configure_chroot env base cfg st₀ = (st₁, ctr, true)) :
    ctr.mountCalls = cfg.chroot_mounts.map (fun md => (mkMountSpec base md).mountpoint) ∧
    st₁.mounts =
      (cfg.chroot_mounts.map (fun md => (mkMountSpec base md).mountpoint)).reverse ++
        st₀.mounts := by
  rcases hc : configureLoop env base cfg.chroot_mounts st₀ [] with ⟨stL, callsL, ok⟩
  cases ok with
  | false =>
    have heq : configure_chroot env base cfg st₀ = (stL, ⟨callsL, false, false⟩, false) := by
      unfold configure_chroot
      rw [hc]
    rw [heq] at h
    simp at h
  | true =>
    obtain ⟨h1, h2, _⟩ := configureLoop_clean env base cfg.chroot_mounts st₀ [] stL callsL
      hclean hnodup hc
    have heq : configure_chroot env base cfg st₀ =
        (if env.hostResolvConf then
          ({stL with chrootResolv := true}, (⟨callsL, true, false⟩ : CTrace), true)
         else (stL, (⟨callsL, false, true⟩ : CTrace), true)) := by
      unfold configure_chroot
      rw [hc]
    by_cases hres : env.hostResolvConf = true
    · rw [heq, if_pos hres] at h
      have hst : st₁ = {stL with chrootResolv := true} := congrArg Prod.fst h.symm
      have hctr : ctr = ⟨callsL, true, false⟩ := congrArg (fun x => x.2.1) h.symm
      rw [hst, hctr]
      exact ⟨h1, h2⟩
    · rw [heq, if_neg hres] at h
      have hst : st₁ = stL := congrArg Prod.fst h.symm
      have hctr : ctr = ⟨callsL, false, true⟩ := congrArg (fun x => x.2.1) h.symm
      rw [hst, hctr]
      exact ⟨h1, h2⟩

theorem teardownLoop_append (env : Env) (base : String) (mds₁ mds₂ : List Mountdef) :
    ∀ (st : SysState) (calls : List String) (last : Option MountSpec)
      (st' : SysState) (calls' : List String) (last' : Option MountSpec),
      teardownLoop env base mds₁ st calls last = (st', calls', last', none) →
      teardownLoop env base (mds₁ ++ mds₂) st calls last =
        teardownLoop env base mds₂ st' calls' last' := by
  induction mds₁ with
  | nil =>
    intro st calls last st' calls' last' h
    simp [teardownLoop] at h
    simp [h.1, h.2.1, h.2.2]
  | cons md rest ih =>
    intro st calls last st' calls' last' h
    by_cases hmem : (mkMountSpec base md).mountpoint ∈ st.mounts
    · by_cases hok : env.unmountOk (mkMountSpec base md).mountpoint = true
      · simp only [teardownLoop, List.cons_append] at h ⊢
        rw [if_pos hmem, if_pos hok] at h ⊢
        exact ih _ _ _ _ _ _ h
      · simp only [teardownLoop, List.cons_append] at h
        rw [if_pos hmem, if_neg hok] at h
        simp at h
    · simp only [teardownLoop, List.cons_append] at h ⊢
      rw [if_neg hmem] at h ⊢
      exact ih _ _ _ _ _ _ h

theorem teardownLoop_stack (env : Env) (base : String)
    (hum : ∀ p, env.unmountOk p = true) (mds : List Mountdef) :
    ∀ (rest : List String) (st : SysState) (calls : List String) (last : Option MountSpec),
      st.mounts = mds.map (fun md => (mkMountSpec base md).mountpoint) ++ rest →
      ∃ last', teardownLoop env base mds st calls last =
        (⟨rest, st.chrootResolv⟩,
          calls ++ mds.map (fun md => (mkMountSpec base md).mountpoint), last', none) := by
  induction mds with
  | nil =>
    intro rest st calls last h
    refine ⟨last, ?_⟩
    simp only [List.map_nil, List.nil_append] at h
    cases st
    simp only [teardownLoop, List.append_nil]
    simp at h
    simp [h]
  | cons md rest ih =>
    intro tail st calls last h
    have hmem : (mkMountSpec base md).mountpoint ∈ st.mounts := by
      rw [h]; simp
    have herase : st.mounts.erase (mkMountSpec base md).mountpoint =
        rest.map (fun md => (mkMountSpec base md).mountpoint) ++ tail := by
      rw [h]
      simp only [List.map_cons, List.cons_append]
      exact List.erase_cons_head _ _
    obtain ⟨last', hrec⟩ := ih tail
      { st with mounts := st.mounts.erase (mkMountSpec base md).mountpoint }
      (calls ++ [(mkMountSpec base md).mountpoint]) (some (mkMountSpec base md)) herase
    refine ⟨last', ?_⟩
    simp only [teardownLoop]
    rw [if_pos hmem, if_pos (hum (mkMountSpec base md).mountpoint)]
    rw [hrec]
    simp

theorem teardownLoop_subset (env : Env) (base : String) (mds : List Mountdef) :
    ∀ (st : SysState) (calls : List String) (last : Option MountSpec),
      (teardownLoop env base mds st calls last).1.mounts ⊆ st.mounts := by
  induction mds with
  | nil => intro st calls last; simp [teardownLoop]
  | cons md rest ih =>
    intro st calls last
    by_cases hmem : (mkMountSpec base md).mountpoint ∈ st.mounts
    · by_cases hok : env.unmountOk (mkMountSpec base md).mountpoint = true
      · simp only [teardownLoop]
        rw [if_pos hmem, if_pos hok]
        exact (ih _ _ _).trans (List.erase_subset _ _)
      · simp only [teardownLoop]
        rw [if_pos hmem, if_neg hok]
        exact fun _ ha => ha
    · simp only [teardownLoop]
      rw [if_neg hmem]
      exact ih _ _ _

theorem teardownLoop_clears (env : Env) (base : String) (mds : List Mountdef) :
    ∀ (st : SysState) (calls : List String) (last : Option MountSpec)
      (st' : SysState) (calls' : List String) (last' : Option MountSpec),
      st.mounts.Nodup →
      teardownLoop env base mds st calls last = (st', calls', last', none) →
      ∀ md ∈ mds, (mkMountSpec base md).mountpoint ∉ st'.mounts := by
  induction mds with
  | nil => intro st calls last st' calls' last' _ _ md hmd; simp at hmd
  | cons md rest ih =>
    intro st calls last st' calls' last' hnd h md' hmd'
    have hsub : ∀ (st₁ : SysState) (calls₁ : List String) (last₁ : Option MountSpec),
        teardownLoop env base rest st₁ calls₁ last₁ = (st', calls', last', none) →
        st'.mounts ⊆ st₁.mounts := by
      intro st₁ calls₁ last₁ he
      have := teardownLoop_subset env base rest st₁ calls₁ last₁
      rw [he] at this
      exact this
    by_cases hmem : (mkMountSpec base md).mountpoint ∈ st.mounts
    · by_cases hok : env.unmountOk (mkMountSpec base md).mountpoint = true
      · simp only [teardownLoop] at h
        rw [if_pos hmem, if_pos hok] at h
        rcases List.mem_cons.mp hmd' with heq | hmd'
        · subst heq
          intro hcon
          have := hsub _ _ _ h hcon
          simp only at this
          rw [(List.Nodup.mem_erase_iff hnd)] at this
          exact this.1 rfl
        · exact ih _ _ _ _ _ _ (List.Nodup.erase _ hnd) h md' hmd'
      · simp only [teardownLoop] at h
        rw [if_pos hmem, if_neg hok] at h
        simp at h
    · simp only [teardownLoop] at h
      rw [if_neg hmem] at h
      rcases List.mem_cons.mp hmd' with heq | hmd'
      · subst heq
        intro hcon
        exact hmem (hsub _ _ _ h hcon)
      · exact ih _ _ _ _ _ _ hnd h md' hmd'

theorem strayLoop_fail_not_ok (env : Env) (last : Option MountSpec) (strays : List String) :
    ∀ (st : SysState) (calls : List String) (st' : SysState) (calls' : List String)
      (o : TOutcome),
      strayLoop env last strays st calls = (st', calls', some o) → o ≠ TOutcome.ok := by
  induction strays with
  | nil => intro st calls st' calls' o h; simp [strayLoop] at h
  | cons p rest ih =>
    intro st calls st' calls' o h
    by_cases hok : env.unmountOk p = true
    · simp only [strayLoop] at h
      rw [if_pos hok] at h
      exact ih _ _ _ _ _ h
    · simp only [strayLoop] at h
      rw [if_neg hok] at h
      have h3 := congrArg (fun x => x.2.2) h
      simp only at h3
      cases last with
      | none =>
        simp at h3
        subst h3
        simp
      | some spec =>
        simp at h3
        subst h3
        simp

theorem strayLoop_none_unbound (env : Env) (strays : List String) :
    ∀ (st : SysState) (calls : List String) (p : String),
      p ∈ strays → env.unmountOk p = false →
      (strayLoop env none strays st calls).2.2 = some TOutcome.unboundLocal := by
  induction strays with
  | nil => intro st calls p hp _; simp at hp
  | cons q rest ih =>
    intro st calls p hp hfail
    by_cases hq : env.unmountOk q = true
    · have hpq : p ≠ q := by
        intro e
        rw [e, hq] at hfail
        cases hfail
      have hp' : p ∈ rest := by
        rcases List.mem_cons.mp hp with h | h
        · exact absurd h hpq
        · exact h
      simp only [strayLoop]
      rw [if_pos hq]
      exact ih _ _ p hp' hfail
    · simp only [strayLoop]
      rw [if_neg hq]

theorem teardownLoop_last_none (env : Env) (base : String) (mds : List Mountdef) :
    ∀ (st : SysState) (calls : List String) (last₀ : Option MountSpec)
      (st' : SysState) (calls' : List String),
      teardownLoop env base mds st calls last₀ = (st', calls', none, none) →
      mds = [] ∧ last₀ = none := by
  induction mds with
  | nil =>
    intro st calls last₀ st' calls' h
    simp [teardownLoop] at h
    exact ⟨rfl, h.2.2⟩
  | cons md rest ih =>
    intro st calls last₀ st' calls' h
    by_cases hmem : (mkMountSpec base md).mountpoint ∈ st.mounts
    · by_cases hok : env.unmountOk (mkMountSpec base md).mountpoint = true
      · simp only [teardownLoop] at h
        rw [if_pos hmem, if_pos hok] at h
        exact absurd (ih _ _ _ _ _ h).2 (by simp)
      · simp only [teardownLoop] at h
        rw [if_pos hmem, if_neg hok] at h
        simp at h
    · simp only [teardownLoop] at h
      rw [if_neg hmem] at h
      exact absurd (ih _ _ _ _ _ h).2 (by simp)

theorem strayLoop_fail_last_some (env : Env) (spec : MountSpec) (strays : List String) :
    ∀ (st : SysState) (calls : List String) (st' : SysState) (calls' : List String)
      (o : TOutcome),
      strayLoop env (some spec) strays st calls = (st', calls', some o) →
      o = TOutcome.failed spec.mountpoint := by
  induction strays with
  | nil => intro st calls st' calls' o h; simp [strayLoop] at h
  | cons p rest ih =>
    intro st calls st' calls' o h
    by_cases hok : env.unmountOk p = true
    · simp only [strayLoop] at h
      rw [if_pos hok] at h
      exact ih _ _ _ _ _ h
    · simp only [strayLoop] at h
      rw [if_neg hok] at h
      have h3 := congrArg (fun x => x.2.2) h
      simp only at h3
      simp at h3
      exact h3.symm

/-! ## Claim theorems -/

/-- **C3**: if the busy check on the session's base path reports busy,
`teardown_chroot` fails immediately: it returns failure, performs zero
`unmount` calls, changes no mount state, and does not remove the injected
resolver file (the returned state is the input state unchanged and the
trace records no unmount call and no resolver removal). -/
theorem teardown_chroot_busy (env : Env) (base : String) (cfg : Config) (st : SysState)
    (hbusy : env.busySuccess = true) :
    teardown_chroot env base cfg st = (st, ⟨[], false⟩, TOutcome.failed base) := by
  unfold teardown_chroot
  rw [if_pos hbusy]

theorem teardown_chroot_busy_witness :
    envBusy.busySuccess = true ∧
    teardown_chroot envBusy "/mnt/img" cfgAB stBase =
      (stBase, ⟨[], false⟩, TOutcome.failed "/mnt/img") :=
  ⟨rfl, teardown_chroot_busy envBusy "/mnt/img" cfgAB stBase rfl⟩

/-- **C6**: calling `teardown_chroot` on a session whose base path is not
mounted (and not busy) succeeds while performing zero unmount calls. -/
theorem teardown_chroot_already_clean (env : Env) (base : String) (cfg : Config)
    (st : SysState)
    (hbusy : env.busySuccess = false)
    (hnm : base ∉ st.mounts) :
    teardown_chroot env base cfg st = (st, ⟨[], false⟩, TOutcome.ok) := by
  unfold teardown_chroot
  rw [if_neg (by rw [hbusy]; simp), if_pos hnm]

theorem teardown_chroot_already_clean_witness :
    envAll.busySuccess = false ∧ "/mnt/img" ∉ stNone.mounts ∧
    teardown_chroot envAll "/mnt/img" cfgAB stNone = (stNone, ⟨[], false⟩, TOutcome.ok) :=
  ⟨rfl, by decide,
    teardown_chroot_already_clean envAll "/mnt/img" cfgAB stNone rfl (by decide)⟩

/-- **C7** (failing-input evaluation): with the short-circuit of
`/sbin/service` enabled and applied successfully, when `yum_install` fails
`provision` raises before ever reaching the `rewire` call: the emitted
event trace ends at the failed install and contains no `rewireSvc` event,
contradicting the requirement that the short-circuit be reversed before the
session exits. -/
theorem provision_install_failure_never_rewires :
    provision ⟨true, true, false, true⟩ true =
      ([PEvent.shortCircuitSvc, PEvent.yumCleanMetadata, PEvent.yumInstallPkg], false) ∧
    PEvent.rewireSvc ∉ (provision ⟨true, true, false, true⟩ true).1 := by
  decide

/-- **C2**: `configure_chroot` processes the configured mountdefs in
configuration order; a spec whose target is already mounted is skipped
(first conjunct); and on the first `mount` call returning a failed
`Result` the whole transition aborts: the result is `false`, the mount
calls stop at the failing target, the resolver file is not copied, and the
state keeps every mount already made (second conjunct). -/
theorem configure_chroot_skip_and_abort (env : Env) (base : String) (cfg : Config)
    (st₀ st' : SysState) (mds₁ : List Mountdef) (md : Mountdef) (mds₂ : List Mountdef)
    (calls : List String)
    (hsplit : cfg.chroot_mounts = mds₁ ++ md :: mds₂)
    (hpre : configureLoop env base mds₁ st₀ [] = (st', calls, true))
    (hmem : (mkMountSpec base md).mountpoint ∉ st'.mounts)
    (hfail : env.mountOk (mkMountSpec base md) = false) :
    (∀ (md₀ : Mountdef) (mds₀ : List Mountdef) (st : SysState) (cs : List String),
        (mkMountSpec base md₀).mountpoint ∈ st.mounts →
        configureLoop env base (md₀ :: mds₀) st cs = configureLoop env base mds₀ st cs) ∧
    configure_chroot env base cfg st₀ =
      (st', ⟨calls ++ [(mkMountSpec base md).mountpoint], false, false⟩, false) := by
  constructor
  · intro md₀ mds₀ st cs hm
    simp only [configureLoop]
    rw [if_pos hm]
  · have hloop : configureLoop env base cfg.chroot_mounts st₀ [] =
        (st', calls ++ [(mkMountSpec base md).mountpoint], false) := by
      rw [hsplit, configureLoop_append env base mds₁ (md :: mds₂) st₀ [] st' calls hpre]
      simp only [configureLoop]
      rw [if_neg hmem, if_neg (by rw [hfail]; simp)]
    unfold configure_chroot
    rw [hloop]

theorem configure_chroot_skip_and_abort_witness :
    cfgABC.chroot_mounts =
      [("proc", "proc", "/proc", "defaults")] ++
        ("devtmpfs", "devtmpfs", "/dev", "defaults") ::
          [("sysfs", "sysfs", "/sys", "defaults")] ∧
    configureLoop envMountFailDev "/mnt/img" [("proc", "proc", "/proc", "defaults")]
      stProcPre [] = (stProcPre, [], true) ∧
    (mkMountSpec "/mnt/img" ("devtmpfs", "devtmpfs", "/dev", "defaults")).mountpoint ∉
      stProcPre.mounts ∧
    envMountFailDev.mountOk
      (mkMountSpec "/mnt/img" ("devtmpfs", "devtmpfs", "/dev", "defaults")) = false ∧
    configure_chroot envMountFailDev "/mnt/img" cfgABC stProcPre =
      (stProcPre, ⟨["/mnt/img/dev"], false, false⟩, false) :=
  ⟨rfl, by decide, by decide, by decide,
    (configure_chroot_skip_and_abort envMountFailDev "/mnt/img" cfgABC stProcPre stProcPre
      [("proc", "proc", "/proc", "defaults")] ("devtmpfs", "devtmpfs", "/dev", "defaults")
      [("sysfs", "sysfs", "/sys", "defaults")] [] rfl (by decide) (by decide)
      (by decide)).2⟩

/-- **C4**: during the reverse-order unmount loop of `teardown_chroot`, if
unmounting some configured target fails, teardown reports failure naming
that target and never issues an unmount call for any configured mount
later in the reverse sequence, nor any stray-sweep unmount: the unmount
trace stops exactly at the failing target. -/
theorem teardown_chroot_unmount_failure (env : Env) (base : String) (cfg : Config)
    (st st' : SysState) (mds₁ : List Mountdef) (md : Mountdef) (mds₂ : List Mountdef)
    (calls : List String) (last : Option MountSpec)
    (hbusy : env.busySuccess = false)
    (hbase : base ∈ st.mounts)
    (hsplit : cfg.chroot_mounts.reverse = mds₁ ++ md :: mds₂)
    (hpre : teardownLoop env base mds₁ { st with chrootResolv := false } [] none =
      (st', calls, last, none))
    (hmem : (mkMountSpec base md).mountpoint ∈ st'.mounts)
    (hfail : env.unmountOk (mkMountSpec base md).mountpoint = false) :
    teardown_chroot env base cfg st =
      (st', ⟨calls ++ [(mkMountSpec base md).mountpoint], st.chrootResolv⟩,
        TOutcome.failed (mkMountSpec base md).mountpoint) := by
  have hloop : teardownLoop env base cfg.chroot_mounts.reverse
      { st with chrootResolv := false } [] none =
      (st', calls ++ [(mkMountSpec base md).mountpoint], some (mkMountSpec base md),
        some (mkMountSpec base md).mountpoint) := by
    rw [hsplit, teardownLoop_append env base mds₁ (md :: mds₂) _ _ _ _ _ _ hpre]
    simp only [teardownLoop]
    rw [if_pos hmem, if_neg (by rw [hfail]; simp)]
  unfold teardown_chroot
  rw [if_neg (by rw [hbusy]; simp), if_neg (by simp [hbase]), hloop]

theorem teardown_chroot_unmount_failure_witness :
    envUnmountFailDev.busySuccess = false ∧
    "/mnt/img" ∈ stABC.mounts ∧
    cfgABC.chroot_mounts.reverse =
      [("sysfs", "sysfs", "/sys", "defaults")] ++
        ("devtmpfs", "devtmpfs", "/dev", "defaults") ::
          [("proc", "proc", "/proc", "defaults")] ∧
    teardownLoop envUnmountFailDev "/mnt/img" [("sysfs", "sysfs", "/sys", "defaults")]
      { stABC with chrootResolv := false } [] none =
      (⟨["/mnt/img/dev", "/mnt/img/proc", "/mnt/img"], false⟩, ["/mnt/img/sys"],
        some (mkMountSpec "/mnt/img" ("sysfs", "sysfs", "/sys", "defaults")), none) ∧
    (mkMountSpec "/mnt/img" ("devtmpfs", "devtmpfs", "/dev", "defaults")).mountpoint ∈
      (⟨["/mnt/img/dev", "/mnt/img/proc", "/mnt/img"], false⟩ : SysState).mounts ∧
    envUnmountFailDev.unmountOk
      (mkMountSpec "/mnt/img" ("devtmpfs", "devtmpfs", "/dev", "defaults")).mountpoint =
        false ∧
    teardown_chroot envUnmountFailDev "/mnt/img" cfgABC stABC =
      (⟨["/mnt/img/dev", "/mnt/img/proc", "/mnt/img"], false⟩,
        ⟨["/mnt/img/sys", "/mnt/img/dev"], true⟩, TOutcome.failed "/mnt/img/dev") :=
  ⟨rfl, by decide, by decide, by decide, by decide, by decide,
    teardown_chroot_unmount_failure envUnmountFailDev "/mnt/img" cfgABC stABC
      ⟨["/mnt/img/dev", "/mnt/img/proc", "/mnt/img"], false⟩
      [("sysfs", "sysfs", "/sys", "defaults")] ("devtmpfs", "devtmpfs", "/dev", "defaults")
      [("proc", "proc", "/proc", "defaults")] ["/mnt/img/sys"]
      (some (mkMountSpec "/mnt/img" ("sysfs", "sysfs", "/sys", "defaults")))
      rfl (by decide) (by decide) (by decide) (by decide) (by decide)⟩

/-- **C8**: Enter's resolver step is best-effort: when the host
`/etc/resolv.conf` exists and the mount loop succeeded, it is copied into
the target's `etc/` directory (the chroot resolver file appears in the
resulting state and the trace records the copy, no warning); when it is
absent, Enter still succeeds with only the warning flag set, no copy
performed, and the chroot resolver state unchanged; and
`teardown_chroot`'s removal of the injected resolver file is a no-op
whenever the file is absent (the teardown trace never records a removal,
in every branch). -/
theorem resolv_conf_best_effort (env : Env) (base : String) (cfg : Config)
    (st st' : SysState) (calls : List String)
    (hloop : configureLoop env base cfg.chroot_mounts st [] = (st', calls, true)) :
    (env.hostResolvConf = true →
      configure_chroot env base cfg st =
        ({ st' with chrootResolv := true }, ⟨calls, true, false⟩, true)) ∧
    (env.hostResolvConf = false →
      configure_chroot env base cfg st = (st', ⟨calls, false, true⟩, true) ∧
      st'.chrootResolv = st.chrootResolv) ∧
    (∀ st₂ : SysState, st₂.chrootResolv = false →
      (teardown_chroot env base cfg st₂).2.1.resolvRemoved = false) := by
  refine ⟨?_, ?_, ?_⟩
  · intro hpres
    unfold configure_chroot
    rw [hloop]
    simp [hpres]
  · intro habs
    refine ⟨?_, ?_⟩
    · unfold configure_chroot
      rw [hloop]
      simp [habs]
    · have h := configureLoop_resolv env base cfg.chroot_mounts st []
      rw [hloop] at h
      exact h
  · intro st₂ h2
    unfold teardown_chroot
    by_cases hb : env.busySuccess = true
    · rw [if_pos hb]
    · rw [if_neg hb]
      by_cases hm : base ∉ st₂.mounts
      · rw [if_pos hm]
      · rw [if_neg hm]
        rcases ht : teardownLoop env base cfg.chroot_mounts.reverse
            { st₂ with chrootResolv := false } [] none with ⟨stL, callsL, lastL, errL⟩
        cases errL with
        | some p => exact h2
        | none =>
          rcases hs : strayLoop env lastL (lifo_mounts base stL.mounts) stL [] with
            ⟨stS, callsS, outS⟩
          simp only [hs]
          cases outS with
          | some o => exact h2
          | none => exact h2

theorem resolv_conf_best_effort_witness :
    configureLoop envAll "/mnt/img" cfgAB.chroot_mounts stBase [] =
      (⟨["/mnt/img/dev", "/mnt/img/proc", "/mnt/img"], false⟩,
        ["/mnt/img/proc", "/mnt/img/dev"], true) ∧
    configureLoop envNoResolv "/mnt/img" cfgAB.chroot_mounts stBase [] =
      (⟨["/mnt/img/dev", "/mnt/img/proc", "/mnt/img"], false⟩,
        ["/mnt/img/proc", "/mnt/img/dev"], true) ∧
    envAll.hostResolvConf = true ∧
    envNoResolv.hostResolvConf = false ∧
    configure_chroot envAll "/mnt/img" cfgAB stBase =
      (⟨["/mnt/img/dev", "/mnt/img/proc", "/mnt/img"], true⟩,
        ⟨["/mnt/img/proc", "/mnt/img/dev"], true, false⟩, true) ∧
    (configure_chroot envNoResolv "/mnt/img" cfgAB stBase =
      (⟨["/mnt/img/dev", "/mnt/img/proc", "/mnt/img"], false⟩,
        ⟨["/mnt/img/proc", "/mnt/img/dev"], false, true⟩, true) ∧
     (⟨["/mnt/img/dev", "/mnt/img/proc", "/mnt/img"], false⟩ : SysState).chrootResolv =
       stBase.chrootResolv) ∧
    (∀ st₂ : SysState, st₂.chrootResolv = false →
      (teardown_chroot envNoResolv "/mnt/img" cfgAB st₂).2.1.resolvRemoved = false) :=
  ⟨by decide, by decide, rfl, rfl,
    (resolv_conf_best_effort envAll "/mnt/img" cfgAB stBase
      ⟨["/mnt/img/dev", "/mnt/img/proc", "/mnt/img"], false⟩
      ["/mnt/img/proc", "/mnt/img/dev"] (by decide)).1 rfl,
    (resolv_conf_best_effort envNoResolv "/mnt/img" cfgAB stBase
      ⟨["/mnt/img/dev", "/mnt/img/proc", "/mnt/img"], false⟩
      ["/mnt/img/proc", "/mnt/img/dev"] (by decide)).2.1 rfl,
    (resolv_conf_best_effort envNoResolv "/mnt/img" cfgAB stBase
      ⟨["/mnt/img/dev", "/mnt/img/proc", "/mnt/img"], false⟩
      ["/mnt/img/proc", "/mnt/img/dev"] (by decide)).2.2⟩

/-- **C10**: for a session whose configured chroot_mounts list is empty, a
failing unmount in the stray sweep hits the error branch that references
the never-assigned loop variable `mountspec`; teardown ends in the
unbound-variable error instead of returning a failure result. -/
theorem teardown_chroot_empty_mounts_unbound (env : Env) (base : String) (cfg : Config)
    (st : SysState) (p : String)
    (hcfg : cfg.chroot_mounts = [])
    (hbusy : env.busySuccess = false)
    (hbase : base ∈ st.mounts)
    (hp : p ∈ lifo_mounts base st.mounts)
    (hfail : env.unmountOk p = false) :
    (teardown_chroot env base cfg st).2.2 = TOutcome.unboundLocal := by
  unfold teardown_chroot
  rw [if_neg (by rw [hbusy]; simp), if_neg (by simp [hbase]), hcfg]
  simp only [List.reverse_nil, teardownLoop]
  rcases hs : strayLoop env none (lifo_mounts base st.mounts)
      { st with chrootResolv := false } [] with ⟨stS, callsS, outS⟩
  have hout := strayLoop_none_unbound env (lifo_mounts base st.mounts)
    { st with chrootResolv := false } [] p hp hfail
  rw [hs] at hout
  simp only at hout
  rw [hout]

theorem teardown_chroot_empty_mounts_unbound_witness :
    cfgEmpty.chroot_mounts = [] ∧
    envUnmountFailExtra.busySuccess = false ∧
    "/mnt/img" ∈ stStray.mounts ∧
    "/mnt/img/extra" ∈ lifo_mounts "/mnt/img" stStray.mounts ∧
    envUnmountFailExtra.unmountOk "/mnt/img/extra" = false ∧
    (teardown_chroot envUnmountFailExtra "/mnt/img" cfgEmpty stStray).2.2 =
      TOutcome.unboundLocal :=
  ⟨rfl, rfl, by decide, by decide, by decide,
    teardown_chroot_empty_mounts_unbound envUnmountFailExtra "/mnt/img" cfgEmpty stStray
      "/mnt/img/extra" rfl rfl (by decide) (by decide) (by decide)⟩

/-- **C9** (failing-input evaluation): tearing down `cfgAB` from a state
with a stray `/mnt/img/extra` whose unmount fails: the only failing
unmount call is on `/mnt/img/extra` (the last entry of the unmount trace),
yet the failure outcome names `/mnt/img/proc` — the mountpoint of the
stale `mountspec` left over from the configured-mount loop — so the
diagnostic does not name the stray actually being processed. -/
theorem teardown_stray_error_names_stale_spec :
    teardown_chroot envUnmountFailExtra "/mnt/img" cfgAB stBody =
      (⟨["/mnt/img/extra", "/mnt/img"], false⟩,
        ⟨["/mnt/img/dev", "/mnt/img/proc", "/mnt/img/extra"], true⟩,
        TOutcome.failed "/mnt/img/proc") ∧
    envUnmountFailExtra.unmountOk "/mnt/img/extra" = false ∧
    envUnmountFailExtra.unmountOk "/mnt/img/proc" = true ∧
    ("/mnt/img/proc" : String) ≠ "/mnt/img/extra" := by
  refine ⟨by decide, rfl, rfl, by decide⟩

/-- **C5** (counterexample to the claim as stated): with an empty
configured mount list and a failing stray unmount, the sweep's failure
does not make `teardown_chroot` report TeardownFailed — the outcome is the
unbound-variable error, not `TOutcome.failed` for any path. -/
theorem stray_sweep_failure_report_cex :
    (teardown_chroot envUnmountFailExtra "/mnt/img" cfgEmpty stStray).2.2 =
      TOutcome.unboundLocal ∧
    ∀ p : String,
      (teardown_chroot envUnmountFailExtra "/mnt/img" cfgEmpty stStray).2.2 ≠
        TOutcome.failed p := by
  have h : (teardown_chroot envUnmountFailExtra "/mnt/img" cfgEmpty stStray).2.2 =
      TOutcome.unboundLocal := by decide
  refine ⟨h, ?_⟩
  intro p hp
  rw [h] at hp
  exact TOutcome.noConfusion hp

/-- **C5** (amended): the stray sweep runs only after the configured list
has been fully and successfully reversed, enumerates exactly the remaining
mounts nested under the base path in LIFO discovery order
(`lifo_mounts`), every enumerated stray is outside the configured list,
and a sweep unmount failure never lets teardown succeed — when the
configured list is nonempty the outcome is the TeardownFailed report
(naming the stale configured descriptor), while with an empty configured
list the failure raises the unbound-variable error instead. -/
theorem stray_sweep_correct (env : Env) (base : String) (cfg : Config)
    (st st' : SysState) (calls1 : List String) (last : Option MountSpec)
    (hbusy : env.busySuccess = false)
    (hbase : base ∈ st.mounts)
    (hnd : st.mounts.Nodup)
    (hloop : teardownLoop env base cfg.chroot_mounts.reverse
        { st with chrootResolv := false } [] none = (st', calls1, last, none)) :
    (∀ p ∈ lifo_mounts base st'.mounts,
        p ∉ cfg.chroot_mounts.map (fun md => (mkMountSpec base md).mountpoint)) ∧
    teardown_chroot env base cfg st =
      (match strayLoop env last (lifo_mounts base st'.mounts) st' [] with
       | (st3, calls2, some o) => (st3, ⟨calls1 ++ calls2, st.chrootResolv⟩, o)
       | (st3, calls2, none) => (st3, ⟨calls1 ++ calls2, st.chrootResolv⟩, TOutcome.ok)) ∧
    (∀ (strays cs calls2 : List String) (st₁ st₂ : SysState) (o : TOutcome),
      strayLoop env last strays st₁ cs = (st₂, calls2, some o) →
      o ≠ TOutcome.ok ∧
      (∀ spec : MountSpec, last = some spec → o = TOutcome.failed spec.mountpoint)) ∧
    (cfg.chroot_mounts ≠ [] → last ≠ none) := by
  refine ⟨?_, ?_, ?_, ?_⟩
  · intro p hp hmem
    have hp' : p ∈ st'.mounts := List.mem_of_mem_filter hp
    obtain ⟨md, hmd, hpt⟩ := List.mem_map.mp hmem
    have hcl := teardownLoop_clears env base cfg.chroot_mounts.reverse
      { st with chrootResolv := false } [] none st' calls1 last hnd hloop md
      (List.mem_reverse.mpr hmd)
    rw [hpt] at hcl
    exact hcl hp'
  · unfold teardown_chroot
    rw [if_neg (by rw [hbusy]; simp), if_neg (by simp [hbase]), hloop]
  · intro strays cs calls2 st₁ st₂ o h
    refine ⟨strayLoop_fail_not_ok env last strays st₁ cs st₂ calls2 o h, ?_⟩
    intro spec hlast
    rw [hlast] at h
    exact strayLoop_fail_last_some env spec strays st₁ cs st₂ calls2 o h
  · intro hne hln
    rw [hln] at hloop
    have hrev := (teardownLoop_last_none env base cfg.chroot_mounts.reverse
      { st with chrootResolv := false } [] none st' calls1 hloop).1
    exact hne (List.reverse_eq_nil_iff.mp hrev)

theorem stray_sweep_correct_witness :
    envAll.busySuccess = false ∧
    "/mnt/img" ∈ stBody.mounts ∧
    stBody.mounts.Nodup ∧
    teardownLoop envAll "/mnt/img" cfgAB.chroot_mounts.reverse
      { stBody with chrootResolv := false } [] none =
      (⟨["/mnt/img/extra", "/mnt/img"], false⟩, ["/mnt/img/dev", "/mnt/img/proc"],
        some (mkMountSpec "/mnt/img" ("proc", "proc", "/proc", "defaults")), none) ∧
    ((∀ p ∈ lifo_mounts "/mnt/img" (⟨["/mnt/img/extra", "/mnt/img"], false⟩ : SysState).mounts,
        p ∉ cfgAB.chroot_mounts.map
          (fun md => (mkMountSpec "/mnt/img" md).mountpoint)) ∧
     teardown_chroot envAll "/mnt/img" cfgAB stBody =
       (match strayLoop envAll
           (some (mkMountSpec "/mnt/img" ("proc", "proc", "/proc", "defaults")))
           (lifo_mounts "/mnt/img" (⟨["/mnt/img/extra", "/mnt/img"], false⟩ : SysState).mounts)
           ⟨["/mnt/img/extra", "/mnt/img"], false⟩ [] with
        | (st3, calls2, some o) =>
          (st3, ⟨["/mnt/img/dev", "/mnt/img/proc"] ++ calls2, stBody.chrootResolv⟩, o)
        | (st3, calls2, none) =>
          (st3, ⟨["/mnt/img/dev", "/mnt/img/proc"] ++ calls2, stBody.chrootResolv⟩,
            TOutcome.ok)) ∧
     (∀ (strays cs calls2 : List String) (st₁ st₂ : SysState) (o : TOutcome),
       strayLoop envAll (some (mkMountSpec "/mnt/img" ("proc", "proc", "/proc", "defaults")))
           strays st₁ cs = (st₂, calls2, some o) →
       o ≠ TOutcome.ok ∧
       (∀ spec : MountSpec,
         (some (mkMountSpec "/mnt/img" ("proc", "proc", "/proc", "defaults")) :
           Option MountSpec) = some spec → o = TOutcome.failed spec.mountpoint)) ∧
     (cfgAB.chroot_mounts ≠ [] →
       (some (mkMountSpec "/mnt/img" ("proc", "proc", "/proc", "defaults")) :
         Option MountSpec) ≠ none)) :=
  ⟨rfl, by decide, by decide, by decide,
    stray_sweep_correct envAll "/mnt/img" cfgAB stBody
      ⟨["/mnt/img/extra", "/mnt/img"], false⟩ ["/mnt/img/dev", "/mnt/img/proc"]
      (some (mkMountSpec "/mnt/img" ("proc", "proc", "/proc", "defaults")))
      rfl (by decide) (by decide) (by decide)⟩

/-- **C1**: starting from a state where none of the configured targets is
mounted (with pairwise-distinct configured mountpoints, the base mounted
and nothing stray under it), a successful Enter followed by Exit with all
unmounts succeeding issues its unmount calls on exactly the reverse of the
sequence of mount calls, and the teardown succeeds. -/
theorem exit_unmounts_reverse_of_enter (env : Env) (base : String) (cfg : Config)
    (st₀ st₁ : SysState) (ctr : CTrace)
    (hclean : ∀ md ∈ cfg.chroot_mounts, (mkMountSpec base md).mountpoint ∉ st₀.mounts)
    (hnodup : (cfg.chroot_mounts.map (fun md => (mkMountSpec base md).mountpoint)).Nodup)
    (hbase : base ∈ st₀.mounts)
    (hnostray : lifo_mounts base st₀.mounts = [])
    (hbusy : env.busySuccess = false)
    (hum : ∀ p, env.unmountOk p = true)
    (henter : configure_chroot env base cfg st₀ = (st₁, ctr, true)) :
    (teardown_chroot env base cfg st₁).2.1.unmountCalls = ctr.mountCalls.reverse ∧
    (teardown_chroot env base cfg st₁).2.2 = TOutcome.ok := by
  obtain ⟨hcalls, hmounts⟩ :=
    configure_chroot_clean env base cfg st₀ st₁ ctr hclean hnodup henter
  have hbase1 : base ∈ st₁.mounts := by
    rw [hmounts]
    exact List.mem_append_right _ hbase
  have hstack : ({ st₁ with chrootResolv := false } : SysState).mounts =
      cfg.chroot_mounts.reverse.map (fun md => (mkMountSpec base md).mountpoint) ++
        st₀.mounts := by
    simp only [List.map_reverse]
    exact hmounts
  obtain ⟨last', hloop⟩ := teardownLoop_stack env base hum cfg.chroot_mounts.reverse
    st₀.mounts { st₁ with chrootResolv := false } [] none hstack
  unfold teardown_chroot
  rw [if_neg (by rw [hbusy]; simp), if_neg (by simp [hbase1]), hloop]
  simp only [List.nil_append, hnostray, strayLoop]
  constructor
  · simp [hcalls, List.map_reverse]
  · simp

theorem exit_unmounts_reverse_of_enter_witness :
    (∀ md ∈ cfgAB.chroot_mounts,
      (mkMountSpec "/mnt/img" md).mountpoint ∉ stBase.mounts) ∧
    (cfgAB.chroot_mounts.map (fun md => (mkMountSpec "/mnt/img" md).mountpoint)).Nodup ∧
    "/mnt/img" ∈ stBase.mounts ∧
    lifo_mounts "/mnt/img" stBase.mounts = [] ∧
    envAll.busySuccess = false ∧
    (∀ p, envAll.unmountOk p = true) ∧
    configure_chroot envAll "/mnt/img" cfgAB stBase =
      (⟨["/mnt/img/dev", "/mnt/img/proc", "/mnt/img"], true⟩,
        ⟨["/mnt/img/proc", "/mnt/img/dev"], true, false⟩, true) ∧
    ((teardown_chroot envAll "/mnt/img" cfgAB
        ⟨["/mnt/img/dev", "/mnt/img/proc", "/mnt/img"], true⟩).2.1.unmountCalls =
      ["/mnt/img/proc", "/mnt/img/dev"].reverse ∧
     (teardown_chroot envAll "/mnt/img" cfgAB
        ⟨["/mnt/img/dev", "/mnt/img/proc", "/mnt/img"], true⟩).2.2 = TOutcome.ok) :=
  ⟨by decide, by decide, by decide, by decide, rfl, fun _ => rfl, by decide,
    exit_unmounts_reverse_of_enter envAll "/mnt/img" cfgAB stBase
      ⟨["/mnt/img/dev", "/mnt/img/proc", "/mnt/img"], true⟩
      ⟨["/mnt/img/proc", "/mnt/img/dev"], true, false⟩
      (by decide) (by decide) (by decide) (by decide) rfl (fun _ => rfl) (by decide)⟩

end Aminator
